import Mathlib

/-!
Shallow embedding of the SFT (semi-fungible token) smart contract
`smart-contracts/assembly/contracts/SFT/SFT.ts` of this repository.

Modelling conventions, faithful to the source:
- Machine `u64` values are `Nat` with an explicit `% U64MOD` exactly where
  the AssemblyScript `u64` arithmetic can wrap (unchecked `+`); checked
  subtraction (`oldBalance - amount` after `oldBalance >= amount`) is plain
  truncated subtraction, which agrees with the source there.
- The persistent key-value store keeps the source's key construction:
  a balance entry lives at the string key `BALANCE ++ owner ++ toString id`
  (`getBalanceKey`), an approval entry at `approved_ ++ toString id`.
  Keys are kept as full strings so that key collisions of the source's
  string concatenation are preserved by the model.
- `Storage.get` of an absent approval key yields the empty string and
  `Storage.del` of an absent key is a no-op: both behaviours are pinned by
  the repository's own unit tests (`getApproved` is expected to return the
  empty string right after `transferFrom` deleted the key, and `transfer`
  of a never-approved token is expected to succeed).
- A failing `assert` aborts the entry point; the state reached at the
  abort is recorded (`Outcome.err msg s`), matching what the repository's
  unit tests observe (writes made before an abort persist in the test VM).
- Argument deserialization and caller resolution are out of scope per the
  specification; entry points take decoded values and the caller directly.
-/

namespace SFT

/-- 2^64, the modulus of the source's `u64` arithmetic. -/
def U64MOD : Nat := 18446744073709551616

/-- First-match lookup in an association list keyed by strings,
the model of a key-value store read. -/
def lookupKV {α : Type} : List (String × α) → String → Option α
  | [], _ => none
  | (k, v) :: rest, key => if k = key then some v else lookupKV rest key

/-- Model of `Storage.del`: remove every binding of the key
(a no-op when the key is absent). -/
def eraseKV {α : Type} (l : List (String × α)) (key : String) : List (String × α) :=
  l.filter (fun p => p.1 != key)

/-- Model of `Storage.set`: bind the key to the value, dropping any
previous binding. -/
def setKV {α : Type} (l : List (String × α)) (key : String) (v : α) : List (String × α) :=
  (key, v) :: eraseKV l key

/-- The contract state: the storage entries the SFT core reads and writes.
`counter` models the `Counter` entry, `maxSupply` the `totalSupply` entry,
`balances` the `BALANCE...`-keyed entries and `approvals` the
`approved_...`-keyed entries. -/
structure Store where
  counter : Nat
  maxSupply : Nat
  balances : List (String × Nat)
  approvals : List (String × String)
deriving DecidableEq, Repr

/-- Well-formedness: every stored number is a `u64` value. -/
def WF (s : Store) : Prop :=
  s.counter < U64MOD ∧ s.maxSupply < U64MOD ∧ ∀ p ∈ s.balances, p.2 < U64MOD

instance (s : Store) : Decidable (WF s) := by
  unfold WF; infer_instance

/-- Result of an entry point: either the new state, or the abort message
together with the state reached when the failing `assert` fired. -/
inductive Outcome where
  | ok : Store → Outcome
  | err : String → Store → Outcome
deriving DecidableEq, Repr

/-- The state carried by an outcome (final state, or state at abort). -/
def Outcome.state : Outcome → Store
  | .ok s => s
  | .err _ s => s

/-- Whether the entry point succeeded. -/
def Outcome.isOk : Outcome → Bool
  | .ok _ => true
  | .err _ _ => false

/-- Whether the entry point aborted. -/
def Outcome.isErr : Outcome → Bool
  | .ok _ => false
  | .err _ _ => true

/-- Source `getBalanceKey`: the storage key of a balance entry is the
string concatenation `BALANCE ++ address ++ toString id`. -/
def getBalanceKey (address : String) (id : Nat) : String :=
  "BALANCE" ++ address ++ toString id

/-- Source `approvedTokenKey + tokenId.toString()`: the storage key of the
approval list of a token. -/
def approvedKey (tokenId : Nat) : String :=
  "approved_" ++ toString tokenId

/-- Source `_balance`: read the balance entry, defaulting to 0 when the
key is absent (the source guards the read with `Storage.has`). -/
def balance (s : Store) (address : String) (id : Nat) : Nat :=
  match lookupKV s.balances (getBalanceKey address id) with
  | some v => v
  | none => 0

/-- Source `_setBalance`: write the balance entry of the key. -/
def setBalance (s : Store) (address : String) (id : Nat) (b : Nat) : Store :=
  { s with balances := setKV s.balances (getBalanceKey address id) b }

/-- Source `balanceOf` (argument decoding stripped): pure read. -/
def balanceOf (s : Store) (address : String) (id : Nat) : Nat :=
  balance s address id

/-- Source `_increment`: `u64` increment of the counter entry. -/
def increment (s : Store) : Store :=
  { s with counter := (s.counter + 1) % U64MOD }

/-- Source `mint`: assert `totalSupply > currentSupply` before anything
else, then increment the counter and credit the new token id to the
recipient with unchecked `u64` addition. -/
def mint (s : Store) (mintAddress : String) (amount : Nat) : Outcome :=
  if s.maxSupply > s.counter then
    let s1 := increment s
    let tokenToMint := s1.counter
    .ok (setBalance s1 mintAddress tokenToMint
          ((balance s1 mintAddress tokenToMint + amount) % U64MOD))
  else
    .err "Max supply reached" s

/-- Source `_removeApprovals`: delete the approval entry of the token. -/
def removeApprovals (s : Store) (tokenId : Nat) : Store :=
  { s with approvals := eraseKV s.approvals (approvedKey tokenId) }

/-- Source `_transfer`: clear approvals, assert sufficient balance, debit
the sender, then credit the recipient re-reading its balance (unchecked
`u64` addition). -/
def underlyingTransfer (s : Store) (from_ toAddr : String) (tokenId amount : Nat) : Outcome :=
  let s1 := removeApprovals s tokenId
  let oldBalance := balance s1 from_ tokenId
  if oldBalance ≥ amount then
    let s2 := setBalance s1 from_ tokenId (oldBalance - amount)
    .ok (setBalance s2 toAddr tokenId ((balance s2 toAddr tokenId + amount) % U64MOD))
  else
    .err "Insufficient balance" s1

/-- Source `transfer` (argument decoding and the event stripped): the
caller is the sender. -/
def transfer (s : Store) (caller toAddr : String) (tokenId amount : Nat) : Outcome :=
  underlyingTransfer s caller toAddr tokenId amount

/-- The split of a string on the comma, the semantics of the source's
`value.split(',')` (JavaScript-style: the empty string splits into a
single empty piece). -/
def splitCommaAux : List Char → List Char → List String
  | [], acc => [String.mk acc.reverse]
  | c :: rest, acc =>
    if c = ',' then String.mk acc.reverse :: splitCommaAux rest []
    else splitCommaAux rest (c :: acc)

/-- Split a string on commas. -/
def splitComma (s : String) : List String :=
  splitCommaAux s.data []

/-- Source `isApproved` (argument decoding stripped): read the approval
entry (empty string when absent), split on the comma, and test
membership. -/
def isApproved (s : Store) (address : String) (tokenId : Nat) : Bool :=
  let value := (lookupKV s.approvals (approvedKey tokenId)).getD ""
  (splitComma value).contains address

/-- Source `_approve`: append the spender to the stored comma-joined list,
or create the entry when absent. -/
def underlyingApprove (s : Store) (tokenId : Nat) (spenderAddress : String) : Store :=
  let key := approvedKey tokenId
  let value :=
    match lookupKV s.approvals key with
    | some old => old ++ "," ++ spenderAddress
    | none => spenderAddress
  { s with approvals := setKV s.approvals key value }

/-- Source `approve` (argument decoding and the event stripped): assert
the caller holds at least 1 of the token, assert the grantee differs from
the caller, assert the CALLER is not already in the approval list (this is
what the source tests), then append the grantee. -/
def approve (s : Store) (caller : String) (tokenId : Nat) (toAddress : String) : Outcome :=
  if balance s caller tokenId ≥ 1 then
    if caller ≠ toAddress then
      if isApproved s caller tokenId = false then
        .ok (underlyingApprove s tokenId toAddress)
      else
        .err "You are already allowed to transfer" s
    else
      .err "You are already the owner" s
  else
    .err "You are not the owner" s

/-- Source `getApproved` (argument decoding stripped): read the approval
entry of the token, the empty string when absent. -/
def getApproved (s : Store) (tokenId : Nat) : String :=
  (lookupKV s.approvals (approvedKey tokenId)).getD ""

/-- Source `transferFrom` (argument decoding stripped): assert `from` is
approved, then delete the approval entry; no balance is touched. -/
def transferFrom (s : Store) (from_ toAddr : String) (tokenId : Nat) : Outcome :=
  if isApproved s from_ tokenId then
    .ok (removeApprovals s tokenId)
  else
    .err "You are not allowed to transfer this token" s

/-- The approval list as the specification words it: the ordered list of
approved addresses, the EMPTY list when no approval entry exists (used to
compare the source behaviour against the specification). -/
def approvalListSpec (s : Store) (tokenId : Nat) : List String :=
  match lookupKV s.approvals (approvedKey tokenId) with
  | some v => splitComma v
  | none => []

/-- Comma-join of a list of addresses, the serialization the specification
describes for `getApproved`. -/
def joinComma : List String → String
  | [] => ""
  | [a] => a
  | a :: rest => a ++ "," ++ joinComma rest

/-- Run a sequence of `approve` calls (caller, grantee) on one token,
threading the state (the state at abort, should a call fail). -/
def approvesRun (t : Nat) : Store → List (String × String) → Store
  | s, [] => s
  | s, (c, g) :: rest => approvesRun t (approve s c t g).state rest

/-- Whether every `approve` call of the sequence succeeds in turn. -/
def approvesOk (t : Nat) : Store → List (String × String) → Bool
  | _, [] => true
  | s, (c, g) :: rest =>
    match approve s c t g with
    | .ok s' => approvesOk t s' rest
    | .err _ _ => false

theorem lookupKV_setKV_self {α : Type} (l : List (String × α)) (k : String) (v : α) :
    lookupKV (setKV l k v) k = some v := by
  simp [setKV, lookupKV]

theorem lookupKV_eraseKV_self {α : Type} (l : List (String × α)) (k : String) :
    lookupKV (eraseKV l k) k = none := by
  induction l with
  | nil => rfl
  | cons p rest ih =>
    by_cases h : p.1 = k
    · simpa [eraseKV, List.filter_cons, h] using ih
    · simpa [eraseKV, List.filter_cons, h, lookupKV] using ih

theorem lookupKV_eraseKV_ne {α : Type} (l : List (String × α)) {k k' : String}
    (h : k' ≠ k) : lookupKV (eraseKV l k) k' = lookupKV l k' := by
  induction l with
  | nil => rfl
  | cons p rest ih =>
    obtain ⟨k1, v1⟩ := p
    by_cases hp : k1 = k
    · subst hp
      have h1 : ¬ (k1 = k') := fun hh => h hh.symm
      simp only [eraseKV, List.filter_cons, bne_self_eq_false, lookupKV, h1, if_false]
      simpa [eraseKV] using ih
    · simp only [eraseKV, List.filter_cons, lookupKV]
      have hb : (k1 != k) = true := by simp [hp]
      rw [hb]
      simp only [if_true, lookupKV]
      by_cases hp' : k1 = k'
      · simp [hp']
      · simp only [hp', if_false]
        simpa [eraseKV] using ih

theorem lookupKV_setKV_ne {α : Type} (l : List (String × α)) {k k' : String}
    (h : k' ≠ k) (v : α) : lookupKV (setKV l k v) k' = lookupKV l k' := by
  have : ¬ k = k' := fun hh => h hh.symm
  simp [setKV, lookupKV, this, lookupKV_eraseKV_ne l h]

theorem lookupKV_mem {α : Type} {l : List (String × α)} {k : String} {v : α}
    (h : lookupKV l k = some v) : (k, v) ∈ l := by
  induction l with
  | nil => simp [lookupKV] at h
  | cons p rest ih =>
    obtain ⟨k1, v1⟩ := p
    by_cases hp : k1 = k
    · subst hp
      simp [lookupKV] at h
      subst h
      exact List.mem_cons_self _ _
    · simp [lookupKV, hp] at h
      exact List.mem_cons_of_mem _ (ih h)

theorem getBalanceKey_inj {a b : String} {n : Nat}
    (h : getBalanceKey a n = getBalanceKey b n) : a = b := by
  unfold getBalanceKey at h
  have hd := congrArg String.data h
  simp only [String.data_append] at hd
  exact String.ext (List.append_cancel_left (List.append_cancel_right hd))

theorem getBalanceKey_ne {a b : String} (n : Nat) (h : a ≠ b) :
    getBalanceKey a n ≠ getBalanceKey b n :=
  fun hk => h (getBalanceKey_inj hk)

/-- All stored balances of a well-formed store are below 2^64, hence so is
every read. -/
theorem balance_lt_of_WF {s : Store} (hWF : WF s) (a : String) (i : Nat) :
    balance s a i < U64MOD := by
  unfold balance
  cases hl : lookupKV s.balances (getBalanceKey a i) with
  | none =>
    show 0 < U64MOD
    decide
  | some v => exact hWF.2.2 _ (lookupKV_mem hl)

theorem balance_setBalance_self (s : Store) (a : String) (i : Nat) (b : Nat)
    {a' : String} {i' : Nat} (h : getBalanceKey a' i' = getBalanceKey a i) :
    balance (setBalance s a i b) a' i' = b := by
  unfold balance setBalance
  rw [h]
  simp [lookupKV_setKV_self]

theorem balance_setBalance_ne (s : Store) (a : String) (i : Nat) (b : Nat)
    {a' : String} {i' : Nat} (h : getBalanceKey a' i' ≠ getBalanceKey a i) :
    balance (setBalance s a i b) a' i' = balance s a' i' := by
  unfold balance setBalance
  rw [lookupKV_setKV_ne _ h]

theorem balance_removeApprovals (s : Store) (t : Nat) (a : String) (i : Nat) :
    balance (removeApprovals s t) a i = balance s a i := rfl

theorem balanceOf_eq_balance (s : Store) (a : String) (i : Nat) :
    balanceOf s a i = balance s a i := rfl

/-- Closed form of `transfer`: the branch on the sender balance taken after
the unconditional approval clearing. -/
theorem transfer_eq (s : Store) (from_ toAddr : String) (t a : Nat) :
    transfer s from_ toAddr t a =
      if a ≤ balance s from_ t then
        .ok (setBalance (setBalance (removeApprovals s t) from_ t (balance s from_ t - a))
              toAddr t
              ((balance (setBalance (removeApprovals s t) from_ t (balance s from_ t - a))
                  toAddr t + a) % U64MOD))
      else
        .err "Insufficient balance" (removeApprovals s t) := rfl


/-- For a nonempty address, the source membership test agrees with the
specification's approval list (which is empty when no entry exists, while
the source splits the empty default into one empty piece). -/
theorem isApproved_iff_mem (s : Store) (t : Nat) {addr : String} (h : addr ≠ "") :
    isApproved s addr t = true ↔ addr ∈ approvalListSpec s t := by
  unfold isApproved approvalListSpec
  cases hl : lookupKV s.approvals (approvedKey t) with
  | none =>
    have hsplit : splitComma "" = [""] := rfl
    simp [hsplit, h]
  | some v => simp

/-- A successful `approve` performs exactly the list append of the source
`_approve`. -/
theorem approve_ok_eq {s : Store} {c : String} {t : Nat} {g : String} {s' : Store}
    (h : approve s c t g = .ok s') : s' = underlyingApprove s t g := by
  unfold approve at h
  split_ifs at h <;>
    first
      | (injection h with h2; exact h2.symm)
      | exact Outcome.noConfusion h

/-- Appending the first grantee creates the approval entry. -/
theorem underlyingApprove_entry_none {s : Store} {t : Nat}
    (h0 : lookupKV s.approvals (approvedKey t) = none) (g : String) :
    lookupKV (underlyingApprove s t g).approvals (approvedKey t) = some g := by
  simp only [underlyingApprove, h0]
  exact lookupKV_setKV_self _ _ _

/-- Appending a further grantee extends the comma-joined entry. -/
theorem underlyingApprove_entry_some {s : Store} {t : Nat} {v : String}
    (h0 : lookupKV s.approvals (approvedKey t) = some v) (g : String) :
    lookupKV (underlyingApprove s t g).approvals (approvedKey t) =
      some (v ++ "," ++ g) := by
  simp only [underlyingApprove, h0]
  exact lookupKV_setKV_self _ _ _

theorem joinComma_cons_cons (a b : String) (l : List String) :
    joinComma (a :: b :: l) = a ++ "," ++ joinComma (b :: l) := rfl

theorem joinComma_glue (v g : String) (l : List String) :
    joinComma ((v ++ "," ++ g) :: l) = v ++ "," ++ joinComma (g :: l) := by
  cases l with
  | nil => rfl
  | cons x xs => simp [joinComma_cons_cons, String.append_assoc]

/-- Running successful approvals on a token extends its approval entry by
the grantees in call order. -/
theorem approvesRun_entry (t : Nat) :
    ∀ (calls : List (String × String)) (s : Store) (v : String),
      lookupKV s.approvals (approvedKey t) = some v →
      approvesOk t s calls = true →
      lookupKV (approvesRun t s calls).approvals (approvedKey t) =
        some (joinComma (v :: calls.map Prod.snd)) := by
  intro calls
  induction calls with
  | nil =>
    intro s v hv _
    simpa [approvesRun, joinComma] using hv
  | cons p rest ih =>
    intro s v hv hok
    obtain ⟨c, g⟩ := p
    cases happ : approve s c t g with
    | err m s1 =>
      unfold approvesOk at hok
      rw [happ] at hok
      simp at hok
    | ok s1 =>
      have hok' : approvesOk t s1 rest = true := by
        simpa [approvesOk, happ] using hok
      have hs1 : s1 = underlyingApprove s t g := approve_ok_eq happ
      have hentry : lookupKV s1.approvals (approvedKey t) = some (v ++ "," ++ g) := by
        rw [hs1]
        exact underlyingApprove_entry_some hv g
      have hrun : approvesRun t s ((c, g) :: rest) = approvesRun t s1 rest := by
        simp [approvesRun, happ, Outcome.state]
      rw [hrun, ih s1 (v ++ "," ++ g) hentry hok']
      simp [joinComma_glue, joinComma_cons_cons]

theorem balance_increment (s : Store) (a : String) (i : Nat) :
    balance (increment s) a i = balance s a i := rfl

theorem balance_key_congr (s : Store) {a a' : String} {i i' : Nat}
    (h : getBalanceKey a' i' = getBalanceKey a i) :
    balance s a' i' = balance s a i := by
  unfold balance
  rw [h]

/-- Claim C2: `mint` fails with the supply-exceeded error whenever the
counter is at least `maxSupply`, before any state is mutated; on success
the counter is incremented by exactly 1 and the credited tokenId is the
post-increment counter value (all other balance entries untouched). -/
theorem mint_supply_cap_and_token_id (s : Store) (toAddr : String) (a : Nat)
    (hWF : WF s) :
    (s.maxSupply ≤ s.counter → mint s toAddr a = .err "Max supply reached" s) ∧
    (s.counter < s.maxSupply →
      (mint s toAddr a).isOk = true ∧
      (mint s toAddr a).state.counter = s.counter + 1 ∧
      balanceOf (mint s toAddr a).state toAddr (s.counter + 1)
        = (balanceOf s toAddr (s.counter + 1) + a) % U64MOD ∧
      ∀ addr i, getBalanceKey addr i ≠ getBalanceKey toAddr (s.counter + 1) →
        balanceOf (mint s toAddr a).state addr i = balanceOf s addr i) := by
  have hcnt : s.counter < U64MOD := hWF.1
  have hmax : s.maxSupply < U64MOD := hWF.2.1
  constructor
  · intro hle
    unfold mint
    rw [if_neg (by omega)]
  · intro hlt
    have hmod : (s.counter + 1) % U64MOD = s.counter + 1 := Nat.mod_eq_of_lt (by omega)
    have hinc : (increment s).counter = s.counter + 1 := by
      simp [increment, hmod]
    have hmint : mint s toAddr a =
        .ok (setBalance (increment s) toAddr (s.counter + 1)
              ((balance (increment s) toAddr (s.counter + 1) + a) % U64MOD)) := by
      unfold mint
      rw [if_pos (by omega)]
      show Outcome.ok (setBalance (increment s) toAddr (increment s).counter
          ((balance (increment s) toAddr (increment s).counter + a) % U64MOD)) = _
      rw [hinc]
    refine ⟨?_, ?_, ?_, ?_⟩
    · rw [hmint]; rfl
    · rw [hmint]
      show (setBalance (increment s) toAddr (s.counter + 1) _).counter = s.counter + 1
      simpa [setBalance] using hinc
    · rw [hmint]
      show balance (setBalance (increment s) toAddr (s.counter + 1) _) toAddr (s.counter + 1)
        = (balance s toAddr (s.counter + 1) + a) % U64MOD
      rw [balance_setBalance_self _ _ _ _ rfl, balance_increment]
    · intro addr i hne
      rw [hmint]
      show balance (setBalance (increment s) toAddr (s.counter + 1) _) addr i = balance s addr i
      rw [balance_setBalance_ne _ _ _ _ hne, balance_increment]

/-- Witness for C2 on a concrete fresh store. -/
theorem mint_supply_cap_and_token_id_witness :
    (mint ⟨0, 5, [], []⟩ "A" 3).isOk = true ∧
    (mint ⟨0, 5, [], []⟩ "A" 3).state.counter = 1 ∧
    balanceOf (mint ⟨0, 5, [], []⟩ "A" 3).state "A" 1 = 3 := by
  have h := (mint_supply_cap_and_token_id ⟨0, 5, [], []⟩ "A" 3 (by decide)).2 (by decide)
  refine ⟨h.1, h.2.1, ?_⟩
  have h3 := h.2.2.1
  simpa using h3

/-- Claim C4: `getApproved` never fails; when no approval entry exists it
returns the empty string (the serialization of the empty list, as the
spec-level `approvalListSpec` also being empty attests), and when an
entry exists it returns it verbatim. -/
theorem getApproved_never_fails (s : Store) (t : Nat) :
    (lookupKV s.approvals (approvedKey t) = none →
      getApproved s t = "" ∧ approvalListSpec s t = []) ∧
    (∀ v, lookupKV s.approvals (approvedKey t) = some v → getApproved s t = v) := by
  constructor
  · intro h
    unfold getApproved approvalListSpec
    rw [h]
    exact ⟨rfl, rfl⟩
  · intro v h
    unfold getApproved
    rw [h]
    rfl

/-- Witness for C4: a token with no approval entry (and never minted). -/
theorem getApproved_never_fails_witness :
    getApproved ⟨0, 5, [], []⟩ 3 = "" ∧ approvalListSpec ⟨0, 5, [], []⟩ 3 = [] :=
  (getApproved_never_fails ⟨0, 5, [], []⟩ 3).1 rfl

/-- Claim C6: in `transfer` the approval clearing is unconditional and
precedes the balance check: on insufficient balance the call aborts with
the approval entry of the token removed and every balance unchanged. -/
theorem transfer_failure_clears_approvals (s : Store) (caller toAddr : String)
    (t a : Nat) (h : balanceOf s caller t < a) :
    transfer s caller toAddr t a = .err "Insufficient balance" (removeApprovals s t) ∧
    lookupKV (removeApprovals s t).approvals (approvedKey t) = none ∧
    ∀ addr i, balanceOf (removeApprovals s t) addr i = balanceOf s addr i := by
  have h' : balance s caller t < a := h
  refine ⟨?_, lookupKV_eraseKV_self _ _, fun addr i => rfl⟩
  rw [transfer_eq, if_neg (by omega)]

/-- Witness for C6: a failing transfer of an approved token. -/
theorem transfer_failure_clears_approvals_witness :
    transfer ⟨0, 5, [("BALANCEA1", 1)], [("approved_1", "B")]⟩ "A" "Z" 1 5
      = .err "Insufficient balance"
          (removeApprovals ⟨0, 5, [("BALANCEA1", 1)], [("approved_1", "B")]⟩ 1) ∧
    lookupKV (removeApprovals ⟨0, 5, [("BALANCEA1", 1)], [("approved_1", "B")]⟩ 1).approvals
      (approvedKey 1) = none := by
  have h := transfer_failure_clears_approvals
    ⟨0, 5, [("BALANCEA1", 1)], [("approved_1", "B")]⟩ "A" "Z" 1 5 (by decide)
  exact ⟨h.1, h.2.1⟩

/-- Claim C9 (amended): `balanceOf` returns 0 for every (owner, tokenId)
pair whose balance KEY is absent, and it is a pure read; because the key
is the bare concatenation of owner and tokenId, two distinct pairs can
share a key, so a pair never touched by a mint can still read a balance
written through a colliding pair. -/
theorem balanceOf_absent_is_zero (s : Store) (addr : String) (id : Nat)
    (h : lookupKV s.balances (getBalanceKey addr id) = none) :
    balanceOf s addr id = 0 := by
  unfold balanceOf balance
  rw [h]

/-- Witness for C9 on a pair never touched. -/
theorem balanceOf_absent_is_zero_witness :
    balanceOf ⟨0, 5, [], []⟩ "Z" 9 = 0 :=
  balanceOf_absent_is_zero ⟨0, 5, [], []⟩ "Z" 9 rfl

/-- Counterexample for C9 as stated: after the single mint of token 2 to
address `a1`, the distinct, never-touched pair (`a`, 12) reads 5, because
both pairs share the storage key `BALANCEa12`. -/
theorem balance_key_collision_cex :
    getBalanceKey "a" 12 = getBalanceKey "a1" 2 ∧
    ("a" : String) ≠ "a1" ∧
    mint ⟨1, 5, [], []⟩ "a1" 5 = .ok ⟨2, 5, [("BALANCEa12", 5)], []⟩ ∧
    balanceOf (⟨2, 5, [("BALANCEa12", 5)], []⟩ : Store) "a" 12 = 5 := by
  decide

/-- Claim C10: a self-transfer with sufficient balance succeeds and leaves
every balance read unchanged (the credit re-reads the debited balance). -/
theorem self_transfer_identity (s : Store) (caller : String) (t a : Nat)
    (hWF : WF s) (h : a ≤ balanceOf s caller t) :
    (transfer s caller caller t a).isOk = true ∧
    ∀ addr i, balanceOf (transfer s caller caller t a).state addr i
      = balanceOf s addr i := by
  have hc : a ≤ balance s caller t := h
  have hB : balance s caller t < U64MOD := balance_lt_of_WF hWF caller t
  have hsub : balance s caller t - a + a = balance s caller t := Nat.sub_add_cancel hc
  have hval : (balance (setBalance (removeApprovals s t) caller t (balance s caller t - a))
      caller t + a) % U64MOD = balance s caller t := by
    rw [balance_setBalance_self _ _ _ _ rfl, hsub]
    exact Nat.mod_eq_of_lt hB
  rw [transfer_eq, if_pos hc]
  refine ⟨rfl, fun addr i => ?_⟩
  show balance (setBalance (setBalance (removeApprovals s t) caller t
      (balance s caller t - a)) caller t _) addr i = balance s addr i
  by_cases hk : getBalanceKey addr i = getBalanceKey caller t
  · rw [balance_setBalance_self _ _ _ _ hk, hval, balance_key_congr s hk]
  · rw [balance_setBalance_ne _ _ _ _ hk, balance_setBalance_ne _ _ _ _ hk,
      balance_removeApprovals]

/-- Witness for C10 on a concrete holder. -/
theorem self_transfer_identity_witness :
    (transfer ⟨0, 5, [("BALANCEA1", 2)], []⟩ "A" "A" 1 1).isOk = true ∧
    balanceOf (transfer ⟨0, 5, [("BALANCEA1", 2)], []⟩ "A" "A" 1 1).state "A" 1
      = balanceOf ⟨0, 5, [("BALANCEA1", 2)], []⟩ "A" 1 := by
  have h := self_transfer_identity ⟨0, 5, [("BALANCEA1", 2)], []⟩ "A" 1 1
    (by decide) (by decide)
  exact ⟨h.1, h.2 "A" 1⟩

/-- Claim C1 (amended): for a successful transfer with distinct sender and
recipient, the sum of their balances for the tokenId is conserved provided
the recipient's balance plus the amount stays below 2^64 (otherwise the
unchecked credit wraps); a transfer failing on insufficient balance leaves
both balances unchanged. -/
theorem transfer_conservation_under_no_wrap (s : Store) (from_ toAddr : String)
    (t a : Nat) (hne : from_ ≠ toAddr) :
    (balanceOf s toAddr t + a < U64MOD →
      ∀ s', transfer s from_ toAddr t a = .ok s' →
        balanceOf s' from_ t + balanceOf s' toAddr t
          = balanceOf s from_ t + balanceOf s toAddr t) ∧
    (∀ m s', transfer s from_ toAddr t a = .err m s' →
      balanceOf s' from_ t = balanceOf s from_ t ∧
      balanceOf s' toAddr t = balanceOf s toAddr t) := by
  have hkFrom : getBalanceKey from_ t ≠ getBalanceKey toAddr t := getBalanceKey_ne t hne
  have hkTo : getBalanceKey toAddr t ≠ getBalanceKey from_ t :=
    getBalanceKey_ne t (fun hh => hne hh.symm)
  constructor
  · intro hnw s' hok
    by_cases hc : a ≤ balance s from_ t
    · rw [transfer_eq, if_pos hc] at hok
      injection hok with hs'
      rw [← hs']
      show balance _ from_ t + balance _ toAddr t = balance s from_ t + balance s toAddr t
      rw [balance_setBalance_ne _ _ _ _ hkFrom,
        balance_setBalance_self _ _ _ _ rfl,
        balance_setBalance_self _ _ _ _ rfl,
        balance_setBalance_ne _ _ _ _ hkTo,
        balance_removeApprovals]
      have hBt : balance s toAddr t + a < U64MOD := hnw
      rw [Nat.mod_eq_of_lt hBt]
      omega
    · rw [transfer_eq, if_neg hc] at hok
      exact Outcome.noConfusion hok
  · intro m s' herr
    by_cases hc : a ≤ balance s from_ t
    · rw [transfer_eq, if_pos hc] at herr
      exact Outcome.noConfusion herr
    · rw [transfer_eq, if_neg hc] at herr
      injection herr with hm hs'
      rw [← hs']
      exact ⟨rfl, rfl⟩

/-- Witness for C1 (amended) on a concrete transfer of 2 from A to B. -/
theorem transfer_conservation_under_no_wrap_witness :
    balanceOf (⟨0, 5, [("BALANCEB1", 6), ("BALANCEA1", 1)], []⟩ : Store) "A" 1
      + balanceOf (⟨0, 5, [("BALANCEB1", 6), ("BALANCEA1", 1)], []⟩ : Store) "B" 1
      = balanceOf (⟨0, 5, [("BALANCEA1", 3), ("BALANCEB1", 4)], []⟩ : Store) "A" 1
      + balanceOf (⟨0, 5, [("BALANCEA1", 3), ("BALANCEB1", 4)], []⟩ : Store) "B" 1 :=
  (transfer_conservation_under_no_wrap ⟨0, 5, [("BALANCEA1", 3), ("BALANCEB1", 4)], []⟩
    "A" "B" 1 2 (by decide)).1 (by decide)
    ⟨0, 5, [("BALANCEB1", 6), ("BALANCEA1", 1)], []⟩ (by decide)

/-- Counterexample for C1 as stated: with the recipient holding 2^64 - 1,
a successful 1-unit transfer from a distinct sender wraps the credited
balance, so the two balances sum to 2^64 before and 0 after. -/
theorem transfer_conservation_exact_cex :
    ("A" : String) ≠ "B" ∧
    transfer ⟨1, 5, [("BALANCEA1", 1), ("BALANCEB1", 18446744073709551615)], []⟩
        "A" "B" 1 1
      = .ok ⟨1, 5, [("BALANCEB1", 0), ("BALANCEA1", 0)], []⟩ ∧
    balanceOf (⟨1, 5, [("BALANCEA1", 1), ("BALANCEB1", 18446744073709551615)], []⟩ : Store)
        "A" 1
      + balanceOf (⟨1, 5, [("BALANCEA1", 1), ("BALANCEB1", 18446744073709551615)], []⟩ : Store)
        "B" 1 = 18446744073709551616 ∧
    balanceOf (⟨1, 5, [("BALANCEB1", 0), ("BALANCEA1", 0)], []⟩ : Store) "A" 1
      + balanceOf (⟨1, 5, [("BALANCEB1", 0), ("BALANCEA1", 0)], []⟩ : Store) "B" 1 = 0 := by
  decide

/-- Claim C3 (code bug): `approve` tests whether the CALLER, not the
grantee, is already approved. On a store where grantee B is already in the
approval list of token 1, owner A approving B again SUCCEEDS and the list
becomes "B,B" — the duplicate rejection the claim (and the error message's
evident intent) requires does not happen. -/
theorem approve_duplicate_grantee_accepted :
    ("B" ∈ approvalListSpec (⟨1, 5, [("BALANCEA1", 1)], [("approved_1", "B")]⟩ : Store) 1) ∧
    approve ⟨1, 5, [("BALANCEA1", 1)], [("approved_1", "B")]⟩ "A" 1 "B"
      = .ok ⟨1, 5, [("BALANCEA1", 1)], [("approved_1", "B,B")]⟩ ∧
    getApproved (⟨1, 5, [("BALANCEA1", 1)], [("approved_1", "B,B")]⟩ : Store) 1 = "B,B" := by
  decide

/-- Claim C5 (amended): for a nonempty `from` address, `transferFrom`
fails with the not-approved error exactly when `from` is not in the
approval list; on success it removes the approval entry and changes no
balance. (When no approval entry exists, the empty-string address is
treated as approved, because the membership test splits the empty default
into one empty piece.) -/
theorem transferFrom_gate_and_frame (s : Store) (from_ toAddr : String) (t : Nat)
    (hne : from_ ≠ "") :
    (from_ ∉ approvalListSpec s t →
      transferFrom s from_ toAddr t
        = .err "You are not allowed to transfer this token" s) ∧
    (from_ ∈ approvalListSpec s t →
      transferFrom s from_ toAddr t = .ok (removeApprovals s t) ∧
      lookupKV (removeApprovals s t).approvals (approvedKey t) = none ∧
      ∀ addr i, balanceOf (removeApprovals s t) addr i = balanceOf s addr i) := by
  have hiff := isApproved_iff_mem s t hne
  constructor
  · intro hnm
    unfold transferFrom
    rw [if_neg (fun hh => hnm (hiff.mp hh))]
  · intro hm
    unfold transferFrom
    rw [if_pos (hiff.mpr hm)]
    exact ⟨rfl, lookupKV_eraseKV_self _ _, fun addr i => rfl⟩

/-- Witness for C5 on a token with approval list "B,C". -/
theorem transferFrom_gate_and_frame_witness :
    transferFrom ⟨0, 5, [], [("approved_1", "B,C")]⟩ "B" "Z" 1
      = .ok (removeApprovals ⟨0, 5, [], [("approved_1", "B,C")]⟩ 1) ∧
    transferFrom ⟨0, 5, [], [("approved_1", "B,C")]⟩ "Q" "Z" 1
      = .err "You are not allowed to transfer this token"
          ⟨0, 5, [], [("approved_1", "B,C")]⟩ := by
  refine ⟨?_, ?_⟩
  · exact ((transferFrom_gate_and_frame ⟨0, 5, [], [("approved_1", "B,C")]⟩ "B" "Z" 1
      (by decide)).2 (by decide)).1
  · exact (transferFrom_gate_and_frame ⟨0, 5, [], [("approved_1", "B,C")]⟩ "Q" "Z" 1
      (by decide)).1 (by decide)

/-- Counterexample for C5 as stated: with no approval entry for token 7,
the empty-string `from` is NOT in the (empty) approval list, yet
`transferFrom` succeeds instead of failing with the not-approved error. -/
theorem transferFrom_empty_from_cex :
    approvalListSpec (⟨1, 5, [("BALANCEB7", 3)], []⟩ : Store) 7 = [] ∧
    transferFrom ⟨1, 5, [("BALANCEB7", 3)], []⟩ "" "B" 7
      = .ok ⟨1, 5, [("BALANCEB7", 3)], []⟩ := by
  decide

/-- Claim C7 (amended): crediting performs unchecked modulo-2^64
arithmetic: `transfer` aborts exactly on insufficient sender balance
(never with an overflow error) and a successful credit stores the sum
modulo 2^64; `mint` aborts exactly when the supply cap is reached. -/
theorem credit_unchecked_wrap (s : Store) (from_ toAddr : String) (t a : Nat)
    (hne : from_ ≠ toAddr) :
    ((transfer s from_ toAddr t a).isErr = true ↔ balanceOf s from_ t < a) ∧
    (a ≤ balanceOf s from_ t →
      balanceOf (transfer s from_ toAddr t a).state toAddr t
        = (balanceOf s toAddr t + a) % U64MOD) ∧
    ((mint s toAddr a).isErr = true ↔ s.maxSupply ≤ s.counter) := by
  have hkTo : getBalanceKey toAddr t ≠ getBalanceKey from_ t :=
    getBalanceKey_ne t (fun hh => hne hh.symm)
  have hbo : balanceOf s from_ t = balance s from_ t := rfl
  refine ⟨?_, ?_, ?_⟩
  · by_cases hc : a ≤ balance s from_ t
    · rw [transfer_eq, if_pos hc]
      exact iff_of_false (by simp [Outcome.isErr]) (by omega)
    · rw [transfer_eq, if_neg hc]
      exact iff_of_true rfl (by omega)
  · intro hc
    have hc' : a ≤ balance s from_ t := hc
    rw [transfer_eq, if_pos hc']
    show balance (setBalance _ toAddr t _) toAddr t = (balance s toAddr t + a) % U64MOD
    rw [balance_setBalance_self _ _ _ _ rfl,
      balance_setBalance_ne _ _ _ _ hkTo, balance_removeApprovals]
  · unfold mint
    by_cases hm : s.maxSupply > s.counter
    · rw [if_pos hm]
      exact iff_of_false (by simp [Outcome.isErr]) (by omega)
    · rw [if_neg hm]
      exact iff_of_true rfl (by omega)

/-- Witness for C7 (amended) on a concrete credit. -/
theorem credit_unchecked_wrap_witness :
    balanceOf (transfer ⟨0, 5, [("BALANCEA1", 3), ("BALANCEB1", 4)], []⟩ "A" "B" 1 2).state
        "B" 1
      = (balanceOf (⟨0, 5, [("BALANCEA1", 3), ("BALANCEB1", 4)], []⟩ : Store) "B" 1 + 2)
          % U64MOD :=
  (credit_unchecked_wrap ⟨0, 5, [("BALANCEA1", 3), ("BALANCEB1", 4)], []⟩ "A" "B" 1 2
    (by decide)).2.1 (by decide)

/-- Counterexample for C7 as stated: the recipient holds 2^64 - 3 and is
credited 3, so the new balance would reach 2^64; the transfer nevertheless
SUCCEEDS (no overflow failure) and the stored balance wraps to 0. -/
theorem credit_overflow_missing_cex :
    18446744073709551616
      ≤ balanceOf (⟨0, 5, [("BALANCEX2", 4), ("BALANCEY2", 18446744073709551613)], []⟩ : Store)
          "Y" 2 + 3 ∧
    transfer ⟨0, 5, [("BALANCEX2", 4), ("BALANCEY2", 18446744073709551613)], []⟩ "X" "Y" 2 3
      = .ok ⟨0, 5, [("BALANCEY2", 0), ("BALANCEX2", 1)], []⟩ ∧
    balanceOf (⟨0, 5, [("BALANCEY2", 0), ("BALANCEX2", 1)], []⟩ : Store) "Y" 2 = 0 := by
  decide

/-- Claim C8: starting from a token with no approval entry, after any
sequence of successful `approve` calls (no intervening transfer) the
stored approval value read by `getApproved` is exactly the grantees in
call order, joined by commas. -/
theorem approvals_insertion_order (s : Store) (t : Nat)
    (calls : List (String × String))
    (h0 : lookupKV s.approvals (approvedKey t) = none)
    (hok : approvesOk t s calls = true) :
    getApproved (approvesRun t s calls) t = joinComma (calls.map Prod.snd) := by
  cases calls with
  | nil =>
    simp [approvesRun, getApproved, h0, joinComma]
  | cons p rest =>
    obtain ⟨c, g⟩ := p
    cases happ : approve s c t g with
    | err m s1 =>
      exfalso
      simpa [approvesOk, happ] using hok
    | ok s1 =>
      have hok' : approvesOk t s1 rest = true := by
        simpa [approvesOk, happ] using hok
      have hs1 : s1 = underlyingApprove s t g := approve_ok_eq happ
      have hentry : lookupKV s1.approvals (approvedKey t) = some g := by
        rw [hs1]
        exact underlyingApprove_entry_none h0 g
      have hrun : approvesRun t s ((c, g) :: rest) = approvesRun t s1 rest := by
        simp [approvesRun, happ, Outcome.state]
      rw [hrun]
      unfold getApproved
      rw [approvesRun_entry t rest s1 g hentry hok']
      simp

/-- Witness for C8: two successful approvals yield the joined list. -/
theorem approvals_insertion_order_witness :
    getApproved (approvesRun 1 ⟨0, 5, [("BALANCEA1", 1)], []⟩ [("A", "B"), ("A", "C")]) 1
      = joinComma ["B", "C"] :=
  approvals_insertion_order ⟨0, 5, [("BALANCEA1", 1)], []⟩ 1 [("A", "B"), ("A", "C")]
    rfl (by decide)

end SFT
